import Mathlib

/-!
# Verification of the reconciliation core of the server-metrics dashboard

A shallow embedding of the metric pipeline of the dashboard:

* the payload normalizer of `useWebSocketMetrics.ts` (`ws.onmessage`),
* the merge of historical and live points (`allMetrics` in `MainTabs`),
* the status classifier (`getSystemStatus` in `MainTabs`),
* the historical-fetch completion logic of the two `useMetrics` hook
  variants (the decoupled one returning `{historicalMetrics, isLoading,
  error}`, and the legacy one returning a single `metrics` list), and
* the scope-change / stale-response behaviour of the decoupled hook
  (`active` flag) together with the live list kept by
  `useWebSocketMetrics`.

Timestamps are embedded as epoch milliseconds (`Nat`): the code keys its
`Map` on the ISO-8601 `timestamp` string and sorts by
`new Date(t).getTime()`; we identify a timestamp with its time value.
Numeric gauges are embedded as `ℚ`.  Presentational string fields copied
verbatim from `meta.formatted` (name, os, kernel, ram, cpu, uptime,
load_avg, network_io and the formatted network throughputs) carry no
logic and are not modelled.
-/

/-- Structure `DiskMetric` of `useMetrics.ts`: one mounted volume. -/
structure DiskMetric where
  mountpoint : String
  total_gb : ℚ
  used_gb : ℚ
  percent : ℚ
deriving DecidableEq

/-- Structure `NetworkMetric` of `useMetrics.ts`: one network interface. -/
structure NetworkMetric where
  interface : String
  address : String
  netmask : Option String
  broadcast : Option String
deriving DecidableEq

/-- Structure `Process` of the decoupled `useMetrics` variant. -/
structure Process where
  pid : Nat
  name : String
  cpu_percent : ℚ
  memory_percent : ℚ
deriving DecidableEq

/-- Field `cpu_speed` is typed `number | string` in the source. -/
inductive NumOrStr where
  | num (x : ℚ)
  | str (s : String)
deriving DecidableEq

/-- Structure `ServerInfo` of `useMetrics.ts`. -/
structure ServerInfo where
  hostname : String
  os : String
  os_name : String
  os_version : String
  arch : String
  cores : Nat
  memory_gb : ℚ
  kernel_version : String
  ram_type : String
  cpu_model : String
  cpu_speed : NumOrStr
deriving DecidableEq

/-- The fields of `meta.formatted` the modelled code reads numerically.
Optional because the wire payload is loosely typed and every access in
the source goes through optional chaining. -/
structure Formatted where
  disk_percent : Option ℚ
deriving DecidableEq

/-- The fields of the `meta` object of a raw record that the modelled code
reads.  All accesses in the source are optionally chained, hence every
field is an `Option`. -/
structure Meta where
  server_info : Option ServerInfo
  disk_percent : Option ℚ
  disk_read_mbps : Option ℚ
  disk_write_mbps : Option ℚ
  formatted : Option Formatted
deriving DecidableEq

/-- A measurement value in the `metrics` array of a raw record: the wire
format carries scalar gauges (`"cpu.percent"`, `"mem.percent"`) and
structured ones (`"disk"`, `"network"`) in the same array. -/
inductive MVal where
  | num (x : ℚ)
  | disks (l : List DiskMetric)
  | nets (l : List NetworkMetric)
deriving DecidableEq

/-- One name/value entry of the `metrics` array of a raw record.  The
`value` is optional: the source guards it with `?.value ?? default`. -/
structure RawMeasurement where
  name : String
  value : Option MVal
deriving DecidableEq

/-- A raw metric record (`msg.data` of a live frame, or one item of the
history response): `{timestamp, metrics, processes?, meta?}` per the
external-interface contract.  The `timestamp` is embedded as its epoch
millisecond value. -/
structure RawRecord where
  timestamp : Nat
  metrics : List RawMeasurement
  processes : Option (List Process)
  meta : Option Meta
deriving DecidableEq

/-- The canonical `MetricPoint` (fields of the TS interface that carry
the verified logic; presentational pass-through strings omitted).
`diskPercent` is optional in the legacy `useMetrics.ts` interface, and
`getSystemStatus` defaults it with `|| 0`. -/
structure MetricPoint where
  timestamp : Nat
  cpu : ℚ
  memory : ℚ
  disk : List DiskMetric
  network : List NetworkMetric
  processes : List Process
  serverInfo : Option ServerInfo
  diskPercent : Option ℚ
  diskRead : ℚ
  diskWrite : ℚ
deriving DecidableEq

/-- Lookup `metrics.find(x => x.name === n)?.value` — first measurement with
the given name, then its (possibly absent) value. -/
def findMeasurement (ms : List RawMeasurement) (n : String) : Option MVal :=
  (ms.find? (fun m => m.name == n)).bind (fun m => m.value)

/-- Reads a measurement at the scalar type the TS interface assigns to
it (`?.value ?? d`): a missing entry or missing value yields the
default. -/
def numOr (v : Option MVal) (d : ℚ) : ℚ :=
  match v with
  | some (.num x) => x
  | _ => d

/-- Reads a measurement at the disk-list type (`?.value ?? []`). -/
def disksOr (v : Option MVal) : List DiskMetric :=
  match v with
  | some (.disks l) => l
  | _ => []

/-- Reads a measurement at the network-list type (`?.value ?? []`). -/
def netsOr (v : Option MVal) : List NetworkMetric :=
  match v with
  | some (.nets l) => l
  | _ => []

/-- JavaScript `a || b` for an optionally-present number: `undefined`
and `0` are falsy, every other (finite) number is truthy. -/
def jsOrQ (a : Option ℚ) (b : ℚ) : ℚ :=
  match a with
  | some x => if x = 0 then b else x
  | none => b

/-- The payload normalizer of `useWebSocketMetrics.ts` (`ws.onmessage`,
construction of `newPoint`), minus the unmodelled presentational
strings:

* `cpu`/`memory`: `metrics.find(name)?.value ?? 0`;
* `disk`/`network`: `metrics.find(name)?.value ?? []`;
* `processes`: `msg.data.processes || []`;
* `serverInfo`: `msg.data.meta?.server_info`;
* `diskPercent`: `parseFloat(meta?.formatted?.disk_percent) ||
  meta?.disk_percent || 0` (`parseFloat` of a present finite number is
  that number, of `undefined` it is `NaN`, which is falsy);
* `diskRead`/`diskWrite`: `meta?.disk_read_mbps || 0` etc. -/
def normalizeWs (r : RawRecord) : MetricPoint where
  timestamp := r.timestamp
  cpu := numOr (findMeasurement r.metrics "cpu.percent") 0
  memory := numOr (findMeasurement r.metrics "mem.percent") 0
  disk := disksOr (findMeasurement r.metrics "disk")
  network := netsOr (findMeasurement r.metrics "network")
  processes := r.processes.getD []
  serverInfo := r.meta.bind (fun m => m.server_info)
  diskPercent := some (jsOrQ (r.meta.bind (fun m => m.formatted.bind (fun f => f.disk_percent)))
    (jsOrQ (r.meta.bind (fun m => m.disk_percent)) 0))
  diskRead := jsOrQ (r.meta.bind (fun m => m.disk_read_mbps)) 0
  diskWrite := jsOrQ (r.meta.bind (fun m => m.disk_write_mbps)) 0

/-! ## The merge (`allMetrics` in `MainTabs`, part_009 lines 253–262)

The source builds a JavaScript `Map` keyed by `timestamp`, inserting
all historical points first and then all live points (`Map.set`
replaces the value of an existing key in place and appends a fresh
key), and sorts `Array.from(map.values())` ascending by time value.
The `Map` is embedded as an association list with distinct keys;
`mapSet` is `Map.set`.  `Array.prototype.sort` with the comparator
`(a, b) => ta - tb` returns a permutation sorted by timestamp; since
the map keys (= the stored timestamps) are pairwise distinct, that
sorted permutation is unique, so any correct sort — here the Mathlib
`insertionSort` — is an exact model of it. -/

/-- JavaScript `Map.set m k v`: replace the value at an existing key in place,
otherwise append the new binding. -/
def mapSet : List (Nat × MetricPoint) → Nat → MetricPoint → List (Nat × MetricPoint)
  | [], k, v => [(k, v)]
  | kv :: rest, k, v => if kv.1 = k then (k, v) :: rest else kv :: mapSet rest k v

/-- JavaScript `Map.get m k` (used only in the verification, to speak about the
binding a key ends up with). -/
def mapGet (m : List (Nat × MetricPoint)) (k : Nat) : Option MetricPoint :=
  (m.find? (fun kv => kv.1 == k)).map Prod.snd

/-- One `metricMap.set(metric.timestamp, metric)` call. -/
def mapStep (m : List (Nat × MetricPoint)) (p : MetricPoint) : List (Nat × MetricPoint) :=
  mapSet m p.timestamp p

/-- The `metricMap` after the two `forEach` passes: the historical
points are inserted first, then the live points. -/
def metricMapOf (points : List MetricPoint) : List (Nat × MetricPoint) :=
  points.foldl mapStep []

/-- Comparator used by the final `.sort`: ascending time value. -/
def tsLE (a b : MetricPoint) : Prop :=
  a.timestamp ≤ b.timestamp

instance : DecidableRel tsLE := fun a b => Nat.decLe a.timestamp b.timestamp

instance : IsTotal MetricPoint tsLE := ⟨fun a b => Nat.le_total a.timestamp b.timestamp⟩

instance : IsTrans MetricPoint tsLE := ⟨fun _ _ _ => Nat.le_trans⟩

/-- Memo `allMetrics` of `MainTabs`: fold both sources into the keyed map,
then sort the values ascending by timestamp. -/
def allMetrics (historicalMetrics liveMetrics : List MetricPoint) : List MetricPoint :=
  List.insertionSort tsLE ((metricMapOf (historicalMetrics ++ liveMetrics)).map Prod.snd)

/-! ## The status classifier (`getSystemStatus` in `MainTabs`) -/

inductive SystemStatus where
  | loading
  | stale
  | critical
  | warning
  | online
  | unknown
deriving DecidableEq

/-- The record `getSystemStatus` returns. -/
structure StatusInfo where
  status : SystemStatus
  text : String
  color : String
  bgColor : String
deriving DecidableEq

/-- Function `getSystemStatus` of `MainTabs` (identical in every MainTabs
variant of the repository).  `latestMetric` is the last element of
`allMetrics`, or `null`; `now` is `new Date().getTime()` in epoch
milliseconds (an integer here — the subtraction may be negative). -/
def getSystemStatus (latestMetric : Option MetricPoint) (now : ℤ) : StatusInfo :=
  match latestMetric with
  | none => ⟨.loading, "Loading...", "text-gray-700", "bg-gray-700"⟩
  | some m =>
    let cpuUsage := m.cpu
    let memoryUsage := m.memory
    let diskUsage := m.diskPercent.getD 0
    let isStale := now - (m.timestamp : ℤ) > 120000
    if isStale then
      ⟨.stale, "System Data Stale", "text-orange-400", "bg-orange-700"⟩
    else if cpuUsage > 95 ∨ memoryUsage > 95 ∨ diskUsage > 95 then
      ⟨.critical, "System Critical", "text-red-400", "bg-red-700"⟩
    else if cpuUsage > 80 ∨ memoryUsage > 85 ∨ diskUsage > 90 then
      ⟨.warning, "System Under Load", "text-yellow-400", "bg-yellow-700"⟩
    else if cpuUsage ≥ 0 ∧ memoryUsage ≥ 0 then
      ⟨.online, "System Online", "text-green-400", "bg-green-700"⟩
    else
      ⟨.unknown, "System Unknown", "text-gray-400", "bg-gray-700"⟩

/-- The classifier exactly as the specification words it (§4.5): the
priority ladder `loading / stale (age > 120 s) / critical / warning /
online / unknown`, written independently of the source to compare the
two. -/
def classifySpec (latest : Option MetricPoint) (now : ℤ) : SystemStatus :=
  match latest with
  | none => .loading
  | some m =>
    if now - (m.timestamp : ℤ) > 120 * 1000 then .stale
    else if m.cpu > 95 ∨ m.memory > 95 ∨ m.diskPercent.getD 0 > 95 then .critical
    else if m.cpu > 80 ∨ m.memory > 85 ∨ m.diskPercent.getD 0 > 90 then .warning
    else if m.cpu ≥ 0 ∧ m.memory ≥ 0 then .online
    else .unknown

/-! ## The live stream (`useWebSocketMetrics.ts`) -/

/-- An inbound frame as the `ws.onmessage` handler discriminates it:
a well-formed metric frame (`msg.type === "metric"` with a readable
payload), a well-formed frame of another type, or a frame on which the
handler throws (invalid JSON, or a shape error such as a missing
`metrics` array) — the `catch` turns the throw into a drop. -/
inductive Frame where
  | metric (data : RawRecord)
  | nonMetric
  | malformed
deriving DecidableEq

/-- The point a frame contributes, if any: only a well-formed metric
frame emits one, through the normalizer. -/
def decodeFrame : Frame → Option MetricPoint
  | .metric r => some (normalizeWs r)
  | .nonMetric => none
  | .malformed => none

/-- The `ws.onmessage` handler of `useWebSocketMetrics.ts` acting on
the `liveMetrics` state: an accepted frame runs
`setLiveMetrics(prev => [...prev, newPoint])`; every other frame
leaves the state untouched. -/
def wsOnMessage (liveMetrics : List MetricPoint) (f : Frame) : List MetricPoint :=
  match decodeFrame f with
  | some p => liveMetrics ++ [p]
  | none => liveMetrics

/-- The connection-visible state of `useWebSocketMetrics`: the live
list plus whether the transport is open.  Only the effect cleanup
calls `ws.close()`; the message handler never does. -/
structure WsState where
  liveMetrics : List MetricPoint
  isOpen : Bool
deriving DecidableEq

/-- One inbound frame: the handler body runs inside `try/catch`, so it
either appends one point or does nothing, and never closes the
socket. -/
def wsStep (s : WsState) (f : Frame) : WsState :=
  { s with liveMetrics := wsOnMessage s.liveMetrics f }

/-- A whole arrival sequence, processed in order. -/
def wsRun (init : List MetricPoint) (fs : List Frame) : List MetricPoint :=
  fs.foldl wsOnMessage init

/-! ## The legacy `useMetrics.ts` hook (single `metrics` list) -/

/-- JavaScript `arr.slice(-n)`: the last `min n arr.length`
elements. -/
def sliceLast (n : Nat) (l : List MetricPoint) : List MetricPoint :=
  l.drop (l.length - n)

/-- The `ws.onmessage` handler of the legacy hook:
`setMetrics(prev => [...prev, newPoint].slice(-200))`. -/
def legacyWsOnMessage (metrics : List MetricPoint) (f : Frame) : List MetricPoint :=
  match decodeFrame f with
  | some p => sliceLast 200 (metrics ++ [p])
  | none => metrics

/-! ## Historical fetch completion -/

/-- How one historical request ends: parsed data, a non-OK HTTP
status, or a thrown network/parse error.  The payload is carried
already normalized (the mapping each hook applies to the response
body). -/
inductive FetchOutcome where
  | ok (data : List MetricPoint)
  | httpError (status : Nat)
  | netError
deriving DecidableEq

/-- The consumer-visible state of the decoupled `useMetrics` variant. -/
structure HookState where
  historicalMetrics : List MetricPoint
  isLoading : Bool
  error : Option String
deriving DecidableEq

/-- One complete `fetchHistorical` run of the decoupled variant, from
its synchronous prefix (`setIsLoading(true); setError(null)`) to its
resolution: success stores the mapped data, a non-OK status throws and
is caught together with network errors
(`setError("Failed to fetch historical metrics.")` — the historical
list is not touched), and `finally` clears the loading flag. -/
def fetchHistorical (s : HookState) (out : FetchOutcome) : HookState :=
  let started : HookState := { s with isLoading := true, error := none }
  match out with
  | .ok data => { started with historicalMetrics := data, isLoading := false }
  | .httpError _ =>
      { started with error := some "Failed to fetch historical metrics.", isLoading := false }
  | .netError =>
      { started with error := some "Failed to fetch historical metrics.", isLoading := false }

/-- One completed fetch of the legacy `useMetrics.ts` hook acting on
its `metrics` state: success stores the data; a non-OK response runs
`setMetrics([])` (the source comments it `// Clear metrics on
failure`), and the `catch` branch also runs `setMetrics([])`. -/
def fetchHistoricalLegacy (_metrics : List MetricPoint) (out : FetchOutcome) : List MetricPoint :=
  match out with
  | .ok data => data
  | .httpError _ => []
  | .netError => []

/-! ## Scope changes in the decoupled dashboard

`MainTabs` consumes the decoupled `useMetrics` (part_003) and
`useWebSocketMetrics`.  Changing the `(serverId, token, period)` scope
re-runs both effects: the cleanup of the old `useMetrics` effect sets
its `active` flag to `false` (so a still-in-flight fetch resolution is
ignored wholesale — every state setter in `fetchHistorical` is guarded
by `active`), the old socket is closed and a new one opened, and the
new effect starts a fresh fetch (`setIsLoading(true); setError(null)`).
Neither `historicalMetrics` nor `liveMetrics` is reset anywhere.
`epoch` numbers the scope generations; a fetch resolution carries the
epoch of the effect run that started it. -/

structure DashState where
  epoch : Nat
  historicalMetrics : List MetricPoint
  isLoading : Bool
  error : Option String
  liveMetrics : List MetricPoint
deriving DecidableEq

inductive DashEvent where
  | scopeChange
  | fetchResolve (epoch : Nat) (out : FetchOutcome)
  | liveFrame (f : Frame)
deriving DecidableEq

def dashStep (s : DashState) (e : DashEvent) : DashState :=
  match e with
  | .scopeChange =>
      { s with epoch := s.epoch + 1, isLoading := true, error := none }
  | .fetchResolve ep out =>
      if ep = s.epoch then
        match out with
        | .ok data => { s with historicalMetrics := data, isLoading := false }
        | _ => { s with error := some "Failed to fetch historical metrics.", isLoading := false }
      else s
  | .liveFrame f =>
      { s with liveMetrics := wsOnMessage s.liveMetrics f }

def dashRun (s : DashState) (es : List DashEvent) : DashState :=
  es.foldl dashStep s

/-- The snapshot every consumer reads (`allMetrics` in `MainTabs`). -/
def snapshot (s : DashState) : List MetricPoint :=
  allMetrics s.historicalMetrics s.liveMetrics

/-! ## Concrete sample data for witnesses and counterexamples -/

/-- A metric point with the given timestamp and all gauges zero. -/
def samplePt (n : Nat) : MetricPoint where
  timestamp := n
  cpu := 0
  memory := 0
  disk := []
  network := []
  processes := []
  serverInfo := none
  diskPercent := none
  diskRead := 0
  diskWrite := 0

/-- A raw record with the given timestamp and no measurements at all. -/
def sampleRaw (n : Nat) : RawRecord where
  timestamp := n
  metrics := []
  processes := none
  meta := none

/-! ## Well-formedness of the keyed map

A JavaScript `Map` never holds two bindings for the same key; in the
embedding this is the invariant `MapWF`, preserved by `mapSet` and
hence by the folds building `metricMapOf`.  The second conjunct records
that `allMetrics` always stores a point under its own timestamp. -/

def MapWF (m : List (Nat × MetricPoint)) : Prop :=
  (m.map Prod.fst).Nodup ∧ ∀ kv ∈ m, kv.2.timestamp = kv.1

theorem mapSet_fst_mem {m : List (Nat × MetricPoint)} {k x : Nat} {v : MetricPoint} :
    x ∈ (mapSet m k v).map Prod.fst ↔ x = k ∨ x ∈ m.map Prod.fst := by
  induction m with
  | nil => simp [mapSet]
  | cons kv rest ih =>
    by_cases h : kv.1 = k
    · subst h
      simp [mapSet]
    · simp only [mapSet, if_neg h, List.map_cons, List.mem_cons, ih]
      tauto

theorem mapSet_wf {m : List (Nat × MetricPoint)} {k : Nat} {v : MetricPoint}
    (hm : MapWF m) (hv : v.timestamp = k) : MapWF (mapSet m k v) := by
  induction m with
  | nil =>
    refine ⟨by simp [mapSet], ?_⟩
    simp [mapSet, hv]
  | cons kv rest ih =>
    obtain ⟨hnd, hts⟩ := hm
    rw [List.map_cons, List.nodup_cons] at hnd
    by_cases h : kv.1 = k
    · subst h
      have he : mapSet (kv :: rest) kv.1 v = (kv.1, v) :: rest := by simp [mapSet]
      refine ⟨?_, ?_⟩
      · rw [he, List.map_cons, List.nodup_cons]
        exact hnd
      · intro x hx
        rw [he] at hx
        rcases List.mem_cons.mp hx with h1 | h1
        · simp [h1, hv]
        · exact hts x (List.mem_cons_of_mem _ h1)
    · have hrest : MapWF (mapSet rest k v) :=
        ih ⟨hnd.2, fun x hx => hts x (List.mem_cons_of_mem _ hx)⟩
      refine ⟨?_, ?_⟩
      · rw [show mapSet (kv :: rest) k v = kv :: mapSet rest k v from by simp [mapSet, h],
          List.map_cons, List.nodup_cons]
        refine ⟨?_, hrest.1⟩
        intro hmem
        rcases mapSet_fst_mem.mp hmem with h1 | h1
        · exact h h1
        · exact hnd.1 h1
      · intro x hx
        rw [show mapSet (kv :: rest) k v = kv :: mapSet rest k v from by simp [mapSet, h]] at hx
        rcases List.mem_cons.mp hx with h1 | h1
        · exact h1 ▸ hts kv (List.mem_cons_self _ _)
        · exact hrest.2 x h1

theorem foldl_mapStep_wf (l : List MetricPoint) :
    ∀ acc : List (Nat × MetricPoint), MapWF acc → MapWF (l.foldl mapStep acc)
  | acc, hacc => by
    induction l generalizing acc with
    | nil => simpa using hacc
    | cons p rest ih => exact ih _ (mapSet_wf hacc rfl)

theorem metricMapOf_wf (l : List MetricPoint) : MapWF (metricMapOf l) :=
  foldl_mapStep_wf l [] ⟨List.nodup_nil, by simp⟩

theorem mapGet_mapSet (m : List (Nat × MetricPoint)) (k : Nat) (v : MetricPoint) (k' : Nat) :
    mapGet (mapSet m k v) k' = if k' = k then some v else mapGet m k' := by
  induction m with
  | nil =>
    by_cases h : k' = k
    · subst h; simp [mapSet, mapGet]
    · have hb : (k == k') = false := by simp [beq_iff_eq]; omega
      simp [mapSet, mapGet, List.find?, hb, h]
  | cons kv rest ih =>
    by_cases hk : kv.1 = k
    · subst hk
      have he : mapSet (kv :: rest) kv.1 v = (kv.1, v) :: rest := by simp [mapSet]
      by_cases h : k' = kv.1
      · subst h; simp [he, mapGet, List.find?]
      · have hb : (kv.1 == k') = false := by simp [beq_iff_eq]; omega
        simp [he, mapGet, List.find?, hb, h]
    · have he : mapSet (kv :: rest) k v = kv :: mapSet rest k v := by simp [mapSet, hk]
      by_cases hkv : kv.1 = k'
      · have hb : (kv.1 == k') = true := by simp [beq_iff_eq, hkv]
        have h : ¬ k' = k := by omega
        simp [he, mapGet, List.find?, hb, h]
      · have hb : (kv.1 == k') = false := by simp [beq_iff_eq, hkv]
        simpa [he, mapGet, List.find?, hb] using ih

/-- The last point of `l` carrying timestamp `k`: the binding a
JavaScript `Map` keyed on timestamps holds after inserting the points
of `l` in order. -/
def lastTs : List MetricPoint → Nat → Option MetricPoint
  | [], _ => none
  | p :: rest, k =>
    match lastTs rest k with
    | some q => some q
    | none => if p.timestamp = k then some p else none

theorem lastTs_timestamp {l : List MetricPoint} {k : Nat} {p : MetricPoint}
    (h : lastTs l k = some p) : p.timestamp = k := by
  induction l with
  | nil => simp [lastTs] at h
  | cons q rest ih =>
    rw [lastTs] at h
    cases hr : lastTs rest k with
    | some x =>
      rw [hr] at h
      have hx : x = p := Option.some_injective _ h
      exact ih (hx ▸ hr)
    | none =>
      rw [hr] at h
      by_cases hq : q.timestamp = k
      · rw [if_pos hq] at h
        exact (Option.some_injective _ h) ▸ hq
      · rw [if_neg hq] at h
        exact absurd h (by simp)

theorem lastTs_append (l₁ l₂ : List MetricPoint) (k : Nat) :
    lastTs (l₁ ++ l₂) k =
      match lastTs l₂ k with
      | some q => some q
      | none => lastTs l₁ k := by
  induction l₁ with
  | nil =>
    cases h : lastTs l₂ k <;> simp [lastTs, h]
  | cons p rest ih =>
    rw [List.cons_append, lastTs, ih, lastTs]
    cases lastTs l₂ k <;> cases lastTs rest k <;> simp

/-- After folding points into the map, each key holds the last point
inserted with that timestamp (later insertions override earlier ones,
whatever list they came from). -/
theorem mapGet_foldl (l : List MetricPoint) :
    ∀ (acc : List (Nat × MetricPoint)) (k : Nat),
      mapGet (l.foldl mapStep acc) k =
        match lastTs l k with
        | some p => some p
        | none => mapGet acc k := by
  induction l with
  | nil => intro acc k; simp [lastTs]
  | cons p rest ih =>
    intro acc k
    rw [List.foldl_cons, ih]
    cases hr : lastTs rest k with
    | some q => simp [lastTs, hr]
    | none =>
      simp only [lastTs, hr]
      show mapGet (mapSet acc p.timestamp p) k = _
      rw [mapGet_mapSet]
      by_cases h : p.timestamp = k
      · rw [if_pos (by omega), if_pos h]
      · rw [if_neg (by omega), if_neg h]

theorem mapGet_metricMapOf (l : List MetricPoint) (k : Nat) :
    mapGet (metricMapOf l) k =
      match lastTs l k with
      | some p => some p
      | none => none := by
  rw [metricMapOf, mapGet_foldl]
  cases lastTs l k <;> simp [mapGet]

theorem mem_of_mapGet_eq_some {m : List (Nat × MetricPoint)} {k : Nat} {p : MetricPoint}
    (h : mapGet m k = some p) : (k, p) ∈ m := by
  unfold mapGet at h
  cases hf : m.find? (fun kv => kv.1 == k) with
  | none => rw [hf] at h; simp at h
  | some kv =>
    rw [hf] at h
    have hk : kv.1 = k := by
      have h1 := List.find?_some (p := fun kv : Nat × MetricPoint => kv.1 == k) hf
      simpa [beq_iff_eq] using h1
    have h2 : kv ∈ m := List.mem_of_find?_eq_some hf
    have hp : kv.2 = p := by simpa using h
    have : kv = (k, p) := by
      cases kv
      simp_all
    exact this ▸ h2

theorem mapGet_eq_some_of_mem {m : List (Nat × MetricPoint)} (hm : (m.map Prod.fst).Nodup)
    {k : Nat} {p : MetricPoint} (h : (k, p) ∈ m) : mapGet m k = some p := by
  induction m with
  | nil => simp at h
  | cons kv rest ih =>
    rw [List.map_cons, List.nodup_cons] at hm
    rcases List.mem_cons.mp h with h1 | h1
    · rw [← h1]
      simp [mapGet, List.find?]
    · have hk : kv.1 ≠ k := by
        intro he
        exact hm.1 (he ▸ List.mem_map.mpr ⟨(k, p), h1, rfl⟩)
      have hb : (kv.1 == k) = false := by simp [beq_iff_eq, hk]
      have := ih hm.2 h1
      simp only [mapGet, List.find?, hb] at this ⊢
      exact this

theorem mem_values_iff {m : List (Nat × MetricPoint)} (hwf : MapWF m) {p : MetricPoint} :
    p ∈ m.map Prod.snd ↔ mapGet m p.timestamp = some p := by
  constructor
  · intro h
    obtain ⟨kv, hkv, hp⟩ := List.mem_map.mp h
    obtain ⟨a, b⟩ := kv
    have hb : b = p := hp
    subst hb
    have hts : b.timestamp = a := hwf.2 (a, b) hkv
    have he : ((a, b) : Nat × MetricPoint) = (b.timestamp, b) := by rw [hts]
    exact mapGet_eq_some_of_mem hwf.1 (he ▸ hkv)
  · intro h
    exact List.mem_map.mpr ⟨(p.timestamp, p), mem_of_mapGet_eq_some h, rfl⟩

/-- The timestamps of the stored values of the map coincide with its keys,
so they are pairwise distinct. -/
theorem values_ts_nodup {m : List (Nat × MetricPoint)} (hwf : MapWF m) :
    ((m.map Prod.snd).map MetricPoint.timestamp).Nodup := by
  have he : (m.map Prod.snd).map MetricPoint.timestamp = m.map Prod.fst := by
    rw [List.map_map]
    exact List.map_congr_left fun kv hkv => hwf.2 kv hkv
  rw [he]
  exact hwf.1

/-! ## C1 and C2: the reconciled snapshot -/

/-- C1.  For every pair of input lists, the snapshot `allMetrics`
exposes is strictly sorted ascending by timestamp — which also means
it holds at most one point per distinct timestamp value — regardless
of how the two lists were produced. -/
theorem C1_snapshot_strictly_sorted (historicalMetrics liveMetrics : List MetricPoint) :
    List.Sorted (fun a b : MetricPoint => a.timestamp < b.timestamp)
      (allMetrics historicalMetrics liveMetrics) := by
  have hwf := metricMapOf_wf (historicalMetrics ++ liveMetrics)
  have hsorted : List.Sorted tsLE (allMetrics historicalMetrics liveMetrics) :=
    List.sorted_insertionSort tsLE _
  have hperm : List.Perm (allMetrics historicalMetrics liveMetrics)
      ((metricMapOf (historicalMetrics ++ liveMetrics)).map Prod.snd) :=
    List.perm_insertionSort tsLE _
  have hnd : ((allMetrics historicalMetrics liveMetrics).map MetricPoint.timestamp).Nodup :=
    ((hperm.map MetricPoint.timestamp).nodup_iff).mpr (values_ts_nodup hwf)
  have hne : (allMetrics historicalMetrics liveMetrics).Pairwise
      (fun a b => a.timestamp ≠ b.timestamp) :=
    List.pairwise_map.mp hnd
  exact (List.Pairwise.and hsorted hne).imp fun h => Nat.lt_of_le_of_ne h.1 h.2

/-- C2.  If `p` is the (last) live point carrying timestamp `t`, the
unique entry of the reconciled snapshot at `t` is `p` — whatever the
historical list contains at `t` and however the two lists were
interleaved in time, since `allMetrics` is recomputed from both whole
lists with the live pass always applied after the historical pass. -/
theorem C2_live_supersedes_history (historicalMetrics liveMetrics : List MetricPoint)
    (t : Nat) (p : MetricPoint) (h : lastTs liveMetrics t = some p) :
    p ∈ allMetrics historicalMetrics liveMetrics ∧
      ∀ q ∈ allMetrics historicalMetrics liveMetrics, q.timestamp = t → q = p := by
  have hwf := metricMapOf_wf (historicalMetrics ++ liveMetrics)
  have hget : mapGet (metricMapOf (historicalMetrics ++ liveMetrics)) t = some p := by
    rw [mapGet_metricMapOf, lastTs_append, h]
  have hts : p.timestamp = t := lastTs_timestamp h
  have hget' : mapGet (metricMapOf (historicalMetrics ++ liveMetrics)) p.timestamp = some p := by
    rw [hts]; exact hget
  have hperm : List.Perm (allMetrics historicalMetrics liveMetrics)
      ((metricMapOf (historicalMetrics ++ liveMetrics)).map Prod.snd) :=
    List.perm_insertionSort tsLE _
  constructor
  · exact hperm.mem_iff.mpr ((mem_values_iff hwf).mpr hget')
  · intro q hq hqt
    have hqv := (mem_values_iff hwf).mp (hperm.mem_iff.mp hq)
    rw [hqt, hget] at hqv
    exact (Option.some_injective _ hqv).symm

/-- C2 witness: a historical point at timestamp 7 with cpu 10 is
superseded by the live point at timestamp 7 with cpu 99. -/
theorem C2_witness :
    lastTs [{ samplePt 7 with cpu := 99 }] 7 = some { samplePt 7 with cpu := 99 } ∧
      { samplePt 7 with cpu := 99 } ∈
        allMetrics [{ samplePt 7 with cpu := 10 }] [{ samplePt 7 with cpu := 99 }] ∧
      ∀ q ∈ allMetrics [{ samplePt 7 with cpu := 10 }] [{ samplePt 7 with cpu := 99 }],
        q.timestamp = 7 → q = { samplePt 7 with cpu := 99 } :=
  ⟨by decide,
    (C2_live_supersedes_history [{ samplePt 7 with cpu := 10 }] [{ samplePt 7 with cpu := 99 }]
      7 { samplePt 7 with cpu := 99 } (by decide)).1,
    (C2_live_supersedes_history [{ samplePt 7 with cpu := 10 }] [{ samplePt 7 with cpu := 99 }]
      7 { samplePt 7 with cpu := 99 } (by decide)).2⟩

/-! ## C3: capacity

`allMetrics` in `MainTabs` performs no truncation at all, so the
snapshot it exposes grows without bound; the only 200-point cap in the
repository is the `slice(-200)` the legacy `useMetrics.ts` hook
applies to its own list on each live frame. -/

theorem mapSet_fresh {m : List (Nat × MetricPoint)} {k : Nat} {v : MetricPoint}
    (h : k ∉ m.map Prod.fst) : mapSet m k v = m ++ [(k, v)] := by
  induction m with
  | nil => simp [mapSet]
  | cons kv rest ih =>
    rw [List.map_cons, List.mem_cons] at h
    push_neg at h
    have hne : kv.1 ≠ k := fun he => h.1 he.symm
    simp only [mapSet, if_neg hne]
    rw [ih h.2, List.cons_append]

/-- Folding a list of points with pairwise-distinct timestamps, none
colliding with the accumulator keys, just appends them all. -/
theorem foldl_mapStep_fresh (l : List MetricPoint) :
    ∀ acc : List (Nat × MetricPoint),
      (acc.map Prod.fst ++ l.map MetricPoint.timestamp).Nodup →
      l.foldl mapStep acc = acc ++ l.map (fun p => (p.timestamp, p)) := by
  induction l with
  | nil => intro acc _; simp
  | cons p rest ih =>
    intro acc h
    have hfresh : p.timestamp ∉ acc.map Prod.fst := by
      rw [List.nodup_append] at h
      intro hmem
      exact h.2.2 hmem (by simp)
    rw [List.foldl_cons,
      show mapStep acc p = acc ++ [(p.timestamp, p)] from mapSet_fresh hfresh,
      ih (acc ++ [(p.timestamp, p)]) (by simpa using h)]
    simp

theorem allMetrics_length_of_nodup (hist : List MetricPoint)
    (h : (hist.map MetricPoint.timestamp).Nodup) :
    (allMetrics hist []).length = hist.length := by
  have hperm : List.Perm
      (List.insertionSort tsLE ((metricMapOf (hist ++ [])).map Prod.snd))
      ((metricMapOf (hist ++ [])).map Prod.snd) :=
    List.perm_insertionSort tsLE _
  rw [allMetrics, hperm.length_eq, List.append_nil, metricMapOf,
    foldl_mapStep_fresh hist [] (by simpa using h)]
  simp

/-- C3 counterexample: 201 historical points with distinct timestamps
and no live points produce a reconciled snapshot of 201 points — the
exposed snapshot does hold more than 200 points. -/
theorem C3_counterexample :
    200 < (allMetrics ((List.range 201).map samplePt) []).length := by
  have h : (((List.range 201).map samplePt).map MetricPoint.timestamp).Nodup := by
    rw [List.map_map]
    have he : (MetricPoint.timestamp ∘ samplePt) = id := funext fun n => rfl
    rw [he, List.map_id]
    exact List.nodup_range 201
  rw [allMetrics_length_of_nodup _ h]
  simp

/-- C3 (amended).  The snapshot `MainTabs` derives is unbounded: with
pairwise-distinct timestamps it retains every ingested point, however
many.  A 200-point cap exists only in the legacy `useMetrics` hook,
whose live-frame handler `slice(-200)`s its own appended list (keeping
the most recent 200 entries in append order). -/
theorem C3_amended :
    (∀ hist : List MetricPoint, (hist.map MetricPoint.timestamp).Nodup →
        (allMetrics hist []).length = hist.length) ∧
      ∀ (prev : List MetricPoint) (r : RawRecord),
        (legacyWsOnMessage prev (.metric r)).length = min (prev.length + 1) 200 := by
  refine ⟨allMetrics_length_of_nodup, ?_⟩
  intro prev r
  simp only [legacyWsOnMessage, decodeFrame, sliceLast, List.length_drop, List.length_append,
    List.length_cons, List.length_nil]
  omega

/-- C3 witness: three distinct timestamps are all retained, and the
legacy handler, on its first append, yields a one-point list. -/
theorem C3_witness :
    (((List.range 3).map samplePt).map MetricPoint.timestamp).Nodup ∧
      (allMetrics ((List.range 3).map samplePt) []).length =
        ((List.range 3).map samplePt).length ∧
      (legacyWsOnMessage [] (.metric (sampleRaw 0))).length = min (0 + 1) 200 :=
  ⟨by decide, C3_amended.1 _ (by decide), C3_amended.2 [] (sampleRaw 0)⟩

/-! ## C4 and C10: the status classifier -/

/-- C4.  The classifier agrees with the priority ladder of the
specification on every input (evaluated in that order: loading, stale,
critical, warning, online, unknown), and on the two prescribed
instances: a latest point aged 121 s is `stale`, one aged 119 s with
cpu = 50 and memory = 50 is `online`. -/
theorem C4_classifier_matches_spec :
    (∀ (latest : Option MetricPoint) (now : ℤ),
        (getSystemStatus latest now).status = classifySpec latest now) ∧
      (getSystemStatus (some { samplePt 0 with cpu := 50, memory := 50 }) 121000).status =
        .stale ∧
      (getSystemStatus (some { samplePt 2000 with cpu := 50, memory := 50 }) 121000).status =
        .online := by
  refine ⟨?_, by decide, by decide⟩
  intro latest now
  cases latest with
  | none => rfl
  | some m =>
    have he : (120 * 1000 : ℤ) = 120000 := by norm_num
    simp only [getSystemStatus, classifySpec, he]
    split_ifs <;> rfl

/-- C10.  With `diskPercent` absent or zero, the `|| 0` default makes
the disk gauge 0, so disk can trigger neither `critical` nor
`warning`: in that case `critical` holds exactly when the point is
fresh and cpu > 95 or memory > 95, and `warning` exactly when it is
fresh, not critical, and cpu > 80 or memory > 85. -/
theorem C10_disk_default (p : MetricPoint) (now : ℤ)
    (h : p.diskPercent = none ∨ p.diskPercent = some 0) :
    ((getSystemStatus (some p) now).status = .critical ↔
        ¬(now - (p.timestamp : ℤ) > 120000) ∧ (p.cpu > 95 ∨ p.memory > 95)) ∧
      ((getSystemStatus (some p) now).status = .warning ↔
        ¬(now - (p.timestamp : ℤ) > 120000) ∧ ¬(p.cpu > 95 ∨ p.memory > 95) ∧
          (p.cpu > 80 ∨ p.memory > 85)) := by
  have hd : p.diskPercent.getD 0 = 0 := by rcases h with h | h <;> simp [h]
  have h95 : ((0 : ℚ) > 95) = False := by norm_num
  have h90 : ((0 : ℚ) > 90) = False := by norm_num
  simp only [getSystemStatus, hd, h95, h90, or_false]
  split_ifs with h1 h2 h3 <;> simp_all

/-- C10 witness: a point with no `diskPercent`, cpu = 96 and age 0 is
classified by the cpu threshold alone. -/
theorem C10_witness :
    ({ samplePt 0 with cpu := 96 }.diskPercent = none ∨
        { samplePt 0 with cpu := 96 }.diskPercent = some 0) ∧
      (((getSystemStatus (some { samplePt 0 with cpu := 96 }) 0).status = .critical ↔
          ¬((0 : ℤ) - ({ samplePt 0 with cpu := 96 }.timestamp : ℤ) > 120000) ∧
            ({ samplePt 0 with cpu := 96 }.cpu > 95 ∨ { samplePt 0 with cpu := 96 }.memory > 95)) ∧
        ((getSystemStatus (some { samplePt 0 with cpu := 96 }) 0).status = .warning ↔
          ¬((0 : ℤ) - ({ samplePt 0 with cpu := 96 }.timestamp : ℤ) > 120000) ∧
            ¬({ samplePt 0 with cpu := 96 }.cpu > 95 ∨ { samplePt 0 with cpu := 96 }.memory > 95) ∧
            ({ samplePt 0 with cpu := 96 }.cpu > 80 ∨ { samplePt 0 with cpu := 96 }.memory > 85))) :=
  ⟨Or.inl rfl, C10_disk_default { samplePt 0 with cpu := 96 } 0 (Or.inl rfl)⟩

/-! ## C6: normalizer defaults -/

/-- C6.  The normalizer is a total function (the embedding returns a
`MetricPoint` for every raw record — missing or malformed optional
fields never raise), and each missing optional datum yields its
documented default: 0 for the scalar gauges, `[]` for the structured
measurements and the process list.  The timestamp is copied through;
the code never rejects a record for any other field. -/
theorem C6_normalizer_defaults (r : RawRecord) :
    (findMeasurement r.metrics "cpu.percent" = none → (normalizeWs r).cpu = 0) ∧
      (findMeasurement r.metrics "mem.percent" = none → (normalizeWs r).memory = 0) ∧
      (findMeasurement r.metrics "disk" = none → (normalizeWs r).disk = []) ∧
      (findMeasurement r.metrics "network" = none → (normalizeWs r).network = []) ∧
      (r.processes = none → (normalizeWs r).processes = []) ∧
      (normalizeWs r).timestamp = r.timestamp := by
  refine ⟨?_, ?_, ?_, ?_, ?_, rfl⟩ <;> intro h <;>
    simp [normalizeWs, h, numOr, disksOr, netsOr]

/-- C6 witness: a record with an empty measurement array and no
`processes` normalizes to all defaults. -/
theorem C6_witness :
    (normalizeWs (sampleRaw 0)).cpu = 0 ∧ (normalizeWs (sampleRaw 0)).memory = 0 ∧
      (normalizeWs (sampleRaw 0)).disk = [] ∧ (normalizeWs (sampleRaw 0)).network = [] ∧
      (normalizeWs (sampleRaw 0)).processes = [] :=
  ⟨(C6_normalizer_defaults (sampleRaw 0)).1 rfl,
    (C6_normalizer_defaults (sampleRaw 0)).2.1 rfl,
    (C6_normalizer_defaults (sampleRaw 0)).2.2.1 rfl,
    (C6_normalizer_defaults (sampleRaw 0)).2.2.2.1 rfl,
    (C6_normalizer_defaults (sampleRaw 0)).2.2.2.2.1 rfl⟩

/-! ## C7: historical fetch failure -/

/-- C7 counterexample: in the legacy `useMetrics.ts` hook (one of the
two implementations the claim cites), a failed fetch does NOT leave the
buffer at its prior content — `setMetrics([])` clears it. -/
theorem C7_counterexample :
    fetchHistoricalLegacy [samplePt 3] (.httpError 500) = [] ∧
      [samplePt 3] ≠ ([] : List MetricPoint) :=
  ⟨rfl, by decide⟩

/-- C7 (amended).  In the decoupled `useMetrics` variant, a failed
historical fetch (non-OK status or thrown error) sets the explicit
error message, leaves `historicalMetrics` at its prior content, and
ingests nothing from the failed response; the legacy `useMetrics.ts`
variant instead clears its buffer to `[]` on failure and surfaces no
error state. -/
theorem C7_amended :
    (∀ (s : HookState) (st : Nat),
        (fetchHistorical s (.httpError st)).historicalMetrics = s.historicalMetrics ∧
          (fetchHistorical s (.httpError st)).error =
            some "Failed to fetch historical metrics." ∧
          (fetchHistorical s .netError).historicalMetrics = s.historicalMetrics ∧
          (fetchHistorical s .netError).error = some "Failed to fetch historical metrics.") ∧
      ∀ (m : List MetricPoint) (st : Nat),
        fetchHistoricalLegacy m (.httpError st) = [] ∧
          fetchHistoricalLegacy m .netError = [] := by
  exact ⟨fun s st => ⟨rfl, rfl, rfl, rfl⟩, fun m st => ⟨rfl, rfl⟩⟩

/-! ## C8 and C9: the live stream -/

/-- C8.  A frame that fails to decode (invalid JSON, malformed shape,
or a non-metric type) is dropped: the live buffer is unchanged and
the connection state is untouched (the handler body is inside
`try/catch` and never calls `ws.close()`). -/
theorem C8_bad_frame_dropped (s : WsState) (f : Frame) (h : decodeFrame f = none) :
    (wsStep s f).liveMetrics = s.liveMetrics ∧ (wsStep s f).isOpen = s.isOpen := by
  constructor
  · simp [wsStep, wsOnMessage, h]
  · rfl

/-- C8 witness: a malformed frame on an open connection with an empty
buffer changes nothing. -/
theorem C8_witness :
    decodeFrame .malformed = none ∧
      (wsStep ⟨[], true⟩ .malformed).liveMetrics = ([] : List MetricPoint) ∧
      (wsStep ⟨[], true⟩ .malformed).isOpen = true :=
  ⟨rfl, (C8_bad_frame_dropped ⟨[], true⟩ .malformed rfl).1,
    (C8_bad_frame_dropped ⟨[], true⟩ .malformed rfl).2⟩

/-- C9.  The live list of `useWebSocketMetrics` is append-only: an
accepted metric frame appends exactly the normalized point at the end,
and after any arrival sequence the list is the initial list followed
by exactly the emitted points in arrival order — duplicates included,
nothing modified or removed. -/
theorem C9_live_list_append_only :
    (∀ (l : List MetricPoint) (r : RawRecord),
        wsOnMessage l (.metric r) = l ++ [normalizeWs r]) ∧
      ∀ (init : List MetricPoint) (fs : List Frame),
        wsRun init fs = init ++ fs.filterMap decodeFrame := by
  refine ⟨fun l r => rfl, ?_⟩
  intro init fs
  induction fs generalizing init with
  | nil => simp [wsRun]
  | cons f rest ih =>
    cases hf : decodeFrame f with
    | some p =>
      have h1 : wsOnMessage init f = init ++ [p] := by simp [wsOnMessage, hf]
      calc wsRun init (f :: rest) = wsRun (init ++ [p]) rest := by
            simp [wsRun, List.foldl_cons, h1]
        _ = (init ++ [p]) ++ rest.filterMap decodeFrame := ih _
        _ = init ++ (f :: rest).filterMap decodeFrame := by
            simp [List.filterMap_cons, hf]
    | none =>
      have h1 : wsOnMessage init f = init := by simp [wsOnMessage, hf]
      calc wsRun init (f :: rest) = wsRun init rest := by
            simp [wsRun, List.foldl_cons, h1]
        _ = init ++ rest.filterMap decodeFrame := ih _
        _ = init ++ (f :: rest).filterMap decodeFrame := by
            simp [List.filterMap_cons, hf]

/-! ## C5: scope change -/

/-- C5 counterexample: a live point ingested in the old scope (epoch
0) is still in the exposed snapshot after the scope changes — neither
`useWebSocketMetrics` nor the decoupled `useMetrics` ever resets its
list on a scope change, so the previous buffer is not discarded. -/
theorem C5_counterexample :
    snapshot (dashStep (dashStep ⟨0, [], true, none, []⟩ (.liveFrame (.metric (sampleRaw 5))))
        .scopeChange) = [normalizeWs (sampleRaw 5)] := by
  rfl

/-- C5 (amended).  Changing scope does make the hook ignore a
still-in-flight historical response for the old scope (the `active`
flag guards every state setter, so a stale-epoch resolution leaves the
state entirely unchanged); but the previous buffer is not discarded:
a scope change leaves both the historical list and the live list
exactly as they were, so old-scope points stay visible until a new
successful fetch overwrites the historical list — and the live list is
never cleared at all. -/
theorem C5_amended :
    (∀ (s : DashState) (ep : Nat) (out : FetchOutcome), ep ≠ s.epoch →
        dashStep s (.fetchResolve ep out) = s) ∧
      ∀ s : DashState,
        (dashStep s .scopeChange).historicalMetrics = s.historicalMetrics ∧
          (dashStep s .scopeChange).liveMetrics = s.liveMetrics := by
  constructor
  · intro s ep out h
    simp [dashStep, h]
  · intro s
    exact ⟨rfl, rfl⟩

/-- C5 witness: a late resolution carrying epoch 1 against a state in
epoch 0 is a no-op. -/
theorem C5_witness :
    (1 : Nat) ≠ (⟨0, [], true, none, []⟩ : DashState).epoch ∧
      dashStep ⟨0, [], true, none, []⟩ (.fetchResolve 1 .netError) =
        ⟨0, [], true, none, []⟩ :=
  ⟨by decide, C5_amended.1 ⟨0, [], true, none, []⟩ 1 .netError (by decide)⟩
